import Mathlib

/-!
Verification development for the reactive binding framework and the
shutdown-alarm escalation engine of the phosphor-fan-presence repository.

Part 1 embeds the D-Bus match filter functors of
`phosphor::fan::control` (struct Properties, InterfaceAdded,
InterfaceRemoved, NameOwner): each functor holds a path/interface/property
filter and a caller handler, and extracts a typed value out of a live bus
message or performs synchronous reads over a static group of members.
Handler invocations and error logs are modelled as an emitted action list;
an uncaught decode error is modelled as Except.error.

Part 2 models the `sensor::monitor::ShutdownAlarmMonitor` escalation
engine (registry of per-alarm countdown timers, gated by power state).
-/

namespace control

/-- The wire type tags a D-Bus variant value can carry in this model. -/
inductive DBusType
  | tBool
  | tInt
  | tString
  deriving DecidableEq

/-- An untyped D-Bus variant value as it appears on the wire. -/
inductive DBusValue
  | vBool (b : Bool)
  | vInt (n : Int)
  | vString (s : String)
  deriving DecidableEq

/-- The wire type of a value. -/
def DBusValue.typeOf : DBusValue → DBusType
  | .vBool _ => .tBool
  | .vInt _ => .tInt
  | .vString _ => .tString

/-- Association-list lookup by key, first match wins (models std::map::find
followed by use of the mapped value; C++ map keys are unique). -/
def vlookup {α β : Type} [DecidableEq α] (k : α) : List (α × β) → Option β
  | [] => none
  | p :: ps => if p.1 = k then some p.2 else vlookup k ps

/-- A PropertiesChanged signal payload: the changed interface name and the
name-to-value mapping, as read by msg.read(iface) and msg.read(properties). -/
structure PropSignal where
  iface : String
  props : List (String × DBusValue)
  deriving DecidableEq

/-- Observable effects of running a binding: the caller handler invoked
with an extracted value, or an error log entry emitted. -/
inductive Action
  | invoked (v : DBusValue)
  | logErr
  deriving DecidableEq

/-- All values of a property map carry the expected wire type T.
Models the static typing of std::map of string to variant of T. -/
def wellTyped (tag : DBusType) (props : List (String × DBusValue)) : Prop :=
  ∀ p ∈ props, DBusValue.typeOf p.2 = tag

instance (tag : DBusType) (props : List (String × DBusValue)) :
    Decidable (wellTyped tag props) :=
  inferInstanceAs (Decidable (∀ p ∈ props, DBusValue.typeOf p.2 = tag))

/-- Models sdbusplus msg.read of a typed property map
(std::map of string to variant of T): the bus decode reports a wire value
whose type differs from T by raising an error, modelled as Except.error;
on success the map is produced. -/
def readTypedProps (tag : DBusType) (props : List (String × DBusValue)) :
    Except Unit (List (String × DBusValue)) :=
  if wellTyped tag props then .ok props else .error ()

/-- The filter fields of struct Properties: object path, interface and
property name (the handler is abstracted; its invocation is an Action). -/
structure Properties where
  path : String
  iface : String
  property : String
  deriving DecidableEq

/-- The handler-only constructor of struct Properties, taking just the
handler: all three filter fields are set to the empty string. -/
def Properties.ofHandler : Properties :=
  { path := "", iface := "", property := "" }

/-- A zone as the bindings use it: getPropertyByName performs a synchronous
bus read of (path, interface, property) and either yields a value or fails
(SdBusError / DBusError, modelled as none). -/
def ZoneRead : Type := String → String → String → Option DBusValue

/-- Properties::operator()(bus, msg, zone), the signal entry point.
With a live message: read the changed interface name; if it differs from
the filter interface, return with no effect. Read the typed property map
(a type mismatch raises an uncaught decode error). Look up the filter
property; if absent, log an error and return; if present, invoke the
handler with the value. With no message: synchronously read the stored
(path, interface, property); on success invoke the handler, on a bus
error do nothing (the error is caught and swallowed). -/
def Properties.onSignal (b : Properties) (tag : DBusType) (zone : ZoneRead)
    (msg : Option PropSignal) : Except Unit (List Action) :=
  match msg with
  | some m =>
    if m.iface = b.iface then
      match readTypedProps tag m.props with
      | .error e => .error e
      | .ok props =>
        match vlookup b.property props with
        | none => .ok [.logErr]
        | some v => .ok [.invoked v]
    else
      .ok []
  | none =>
    match zone b.path b.iface b.property with
    | some v => .ok [.invoked v]
    | none => .ok []

/-- A group member: (path, interface, property), the tuple positions
pathPos, intfPos, propPos of a Group entry. -/
structure Member where
  path : String
  iface : String
  property : String
  deriving DecidableEq

/-- The per-member body of Properties::operator()(zone, group): try the
synchronous read; on success hand the value to the handler, on a caught
bus error emit nothing. -/
def Properties.memberActions (zone : ZoneRead) (m : Member) : List Action :=
  match zone m.path m.iface m.property with
  | some v => [.invoked v]
  | none => []

/-- Properties::operator()(zone, group), the init entry point: for_each
member of the group, in order, run the per-member body, accumulating the
emitted effects. -/
def Properties.onGroup (zone : ZoneRead) (group : List Member) : List Action :=
  group.foldl (fun acc m => acc ++ Properties.memberActions zone m) []

/-- An InterfacesAdded signal payload: the announced object path and the
nested interface-to-(property-to-value) mapping, as read by msg.read(op)
and msg.read(intfProp). -/
structure AddedSignal where
  path : String
  intfProp : List (String × List (String × DBusValue))
  deriving DecidableEq

/-- Every value in the nested interface-to-properties mapping carries the
expected wire type T. -/
def wellTypedNested (tag : DBusType)
    (intfProp : List (String × List (String × DBusValue))) : Prop :=
  ∀ q ∈ intfProp, wellTyped tag q.2

instance (tag : DBusType)
    (intfProp : List (String × List (String × DBusValue))) :
    Decidable (wellTypedNested tag intfProp) :=
  inferInstanceAs (Decidable (∀ q ∈ intfProp, wellTyped tag q.2))

/-- Models sdbusplus msg.read of the typed nested map
(std::map of string to map of string to variant of T). -/
def readTypedNested (tag : DBusType)
    (intfProp : List (String × List (String × DBusValue))) :
    Except Unit (List (String × List (String × DBusValue))) :=
  if wellTypedNested tag intfProp then .ok intfProp else .error ()

/-- The filter fields of struct InterfaceAdded. -/
structure InterfaceAdded where
  path : String
  iface : String
  property : String
  deriving DecidableEq

/-- InterfaceAdded::operator()(bus, msg, zone): only acts when a live
message is present. Read the announced object path; if it differs from
the filter path, return. Read the typed nested mapping (a type mismatch
raises an uncaught decode error). If the filter interface is absent,
return; if the filter property is absent within it, return; otherwise
invoke the handler with the value. Without a message, nothing happens. -/
def InterfaceAdded.onSignal (b : InterfaceAdded) (tag : DBusType)
    (msg : Option AddedSignal) : Except Unit (List Action) :=
  match msg with
  | some m =>
    if m.path = b.path then
      match readTypedNested tag m.intfProp with
      | .error e => .error e
      | .ok intfProp =>
        match vlookup b.iface intfProp with
        | none => .ok []
        | some props =>
          match vlookup b.property props with
          | none => .ok []
          | some v => .ok [.invoked v]
    else
      .ok []
  | none => .ok []

/-- An InterfacesRemoved signal payload: the announced object path and the
list of removed interface names. -/
structure RemovedSignal where
  path : String
  intfs : List String
  deriving DecidableEq

/-- The filter fields of struct InterfaceRemoved. -/
structure InterfaceRemoved where
  path : String
  iface : String
  deriving DecidableEq

/-- Handler invocation of the InterfaceRemoved binding carries no value:
removal is a presence signal only. -/
inductive RemAction
  | invoked
  deriving DecidableEq

/-- InterfaceRemoved::operator()(bus, msg, zone): only acts when a live
message is present. Read the announced object path (must equal the filter
path) and the removed interface list; if the filter interface is among
them, invoke the handler. Without a message, nothing happens. -/
def InterfaceRemoved.onSignal (b : InterfaceRemoved)
    (msg : Option RemovedSignal) : List RemAction :=
  match msg with
  | some m =>
    if m.path = b.path then
      if b.iface ∈ m.intfs then [.invoked] else []
    else
      []
  | none => []

/-- Handler invocation of the NameOwner binding: the service name and
whether it currently has an owner. -/
inductive NOAction
  | invoked (name : String) (hasOwner : Bool)
  deriving DecidableEq

/-- The external bus surface NameOwner group mode consumes:
zone.getService(path, interface) resolves the owning service name, and
the NameHasOwner method call queries ownership; either may fail with a
DBusMethodError (modelled as none). -/
structure NOBus where
  getService : String → String → Option String
  nameHasOwner : String → Option Bool

/-- The dedup state NameOwner group mode threads across members: the last
seen service name and its ownership result. -/
structure NOState where
  name : String
  hasOwner : Bool
  deriving DecidableEq

/-- The per-member body of NameOwner::operator()(zone, group): resolve the
owning service of the member; if it equals the dedup name, skip. Otherwise
query NameHasOwner and invoke the handler with the result. A failure of
either call is caught: no handler runs for that member and the dedup state
resets to the empty name with no owner. -/
def NameOwner.step (bus : NOBus) (st : NOState) (m : Member) :
    NOState × List NOAction :=
  match bus.getService m.path m.iface with
  | none => (⟨"", false⟩, [])
  | some servName =>
    if st.name ≠ servName then
      match bus.nameHasOwner servName with
      | none => (⟨"", false⟩, [])
      | some owns => (⟨servName, owns⟩, [.invoked servName owns])
    else
      (st, [])

/-- NameOwner::operator()(zone, group), from a given dedup state: for_each
member of the group, in order, run the per-member body, threading the
dedup state and accumulating the emitted effects. -/
def NameOwner.runFrom (bus : NOBus) (st : NOState) (group : List Member) :
    NOState × List NOAction :=
  group.foldl
    (fun acc m =>
      let r := NameOwner.step bus acc.1 m
      (r.1, acc.2 ++ r.2))
    (st, [])

/-- NameOwner::operator()(zone, group): the pass starts with the empty
name and no owner. Only the emitted effects are observable. -/
def NameOwner.onGroup (bus : NOBus) (group : List Member) : List NOAction :=
  (NameOwner.runFrom bus ⟨"", false⟩ group).2

end control

namespace monitor

/-- Modelled from the spec: the alarm class of an AlarmKey, Soft or Hard
shutdown threshold interface (the ShutdownAlarmMonitor implementation
file is not in the sources; only its header declares the types). -/
inductive ShutdownType
  | soft
  | hard
  deriving DecidableEq

/-- Modelled from the spec: the direction of a threshold alarm. -/
inductive AlarmType
  | low
  | high
  deriving DecidableEq

/-- Modelled from the spec: the AlarmKey, the composite immutable key
(object path, alarm class, direction) of one threshold alarm. -/
structure AlarmKey where
  path : String
  cls : ShutdownType
  dir : AlarmType
  deriving DecidableEq

/-- Modelled from the spec: the per-alarm registry entry. The timer field
holds the remaining-duration configuration of the running one-shot
countdown, or none when no timer runs. The lastVal field records the
last alarm value the engine has observed for this key (ghost state the
invariant of section 3 of the spec refers to). -/
structure AlarmEntry where
  timer : Option Nat
  lastVal : Bool
  deriving DecidableEq

/-- Modelled from the spec: the engine state, the alarms registry (the
map from AlarmKey to optional timer, with observation ghost state) and
the current power state. -/
structure Engine where
  alarms : List (AlarmKey × AlarmEntry)
  power : Bool
  deriving DecidableEq

/-- Modelled from the spec: the class-specific countdown delay, soft and
hard classes use independently configured durations. -/
def delayFor (softDelay hardDelay : Nat) : ShutdownType → Nat
  | .soft => softDelay
  | .hard => hardDelay

/-- Modelled from the spec: the event log records the engine emits:
threshold alarm asserted, threshold alarm cleared, and timer expired
with shutdown initiated. -/
inductive LogEvent
  | asserted (key : AlarmKey)
  | cleared (key : AlarmKey)
  | shutdownInitiated (key : AlarmKey)
  deriving DecidableEq

/-- Modelled from the spec: the per-entry effect of checkAlarm(value, id)
given the current power state. If the value is true, power is on and no
timer runs, create and arm a timer with the class-specific delay and log
an asserted event. If the value is false and a timer runs, cancel and
remove it and log a cleared event. All other combinations leave the
timer untouched. The observed value is always recorded. -/
def applyCheck (softDelay hardDelay : Nat) (power value : Bool)
    (key : AlarmKey) (st : AlarmEntry) : AlarmEntry × List LogEvent :=
  if value && power && st.timer.isNone then
    ({ timer := some (delayFor softDelay hardDelay key.cls),
       lastVal := value }, [.asserted key])
  else if !value && st.timer.isSome then
    ({ timer := none, lastVal := value }, [.cleared key])
  else
    ({ st with lastVal := value }, [])

/-- Modelled from the spec: checkAlarm(value, alarmKey). The registry
entry of the key, when present, is updated by the per-entry effect; a key
the registry does not know is ignored (the alarm universe is static after
discovery). -/
def checkAlarm (softDelay hardDelay : Nat) (value : Bool) (key : AlarmKey)
    (e : Engine) : Engine × List LogEvent :=
  match control.vlookup key e.alarms with
  | none => (e, [])
  | some st =>
    let r := applyCheck softDelay hardDelay e.power value key st
    ({ e with
       alarms := e.alarms.map fun p => if p.1 = key then (p.1, r.1) else p },
     r.2)

/-- Modelled from the spec: the iteration of checkAlarms() over the known
alarm keys, threading the engine state and the emitted logs. A key absent
from the supplied values is a failed property fetch, caught and treated
as value unknown, skipping that alarm without aborting the others. -/
def checkAlarmsGo (softDelay hardDelay : Nat) (vals : List (AlarmKey × Bool)) :
    List AlarmKey → Engine × List LogEvent → Engine × List LogEvent
  | [], acc => acc
  | k :: ks, acc =>
    match control.vlookup k vals with
    | none => checkAlarmsGo softDelay hardDelay vals ks acc
    | some v =>
      let r := checkAlarm softDelay hardDelay v k acc.1
      checkAlarmsGo softDelay hardDelay vals ks (r.1, acc.2 ++ r.2)

/-- Modelled from the spec: checkAlarms(), the full re-evaluation run on a
power-on transition. For every known AlarmKey, synchronously re-read its
current value and call checkAlarm with it. The re-read values are supplied
by the environment as an association list. -/
def checkAlarms (softDelay hardDelay : Nat) (vals : List (AlarmKey × Bool))
    (e : Engine) : Engine × List LogEvent :=
  checkAlarmsGo softDelay hardDelay vals (e.alarms.map Prod.fst) (e, [])

/-- Modelled from the spec: powerStateChanged(powerStateOn). When power
turns on, run the full re-evaluation checkAlarms. When power turns off,
cancel every running timer unconditionally, emitting no cleared logs. -/
def powerStateChanged (softDelay hardDelay : Nat) (on_ : Bool)
    (vals : List (AlarmKey × Bool)) (e : Engine) : Engine × List LogEvent :=
  if on_ then
    checkAlarms softDelay hardDelay vals { e with power := true }
  else
    ({ power := false,
       alarms := e.alarms.map fun p => (p.1, { p.2 with timer := none }) },
     [])

/-- Modelled from the spec: the timer expiry callback. It executes the
shutdown action exactly once, logs the expiry, and removes the timer from
the registry (the entry reverts to absent); the last observed alarm value
is untouched. A key without a running timer cannot fire. -/
def timerExpired (key : AlarmKey) (e : Engine) : Engine × List LogEvent :=
  match control.vlookup key e.alarms with
  | none => (e, [])
  | some st =>
    if st.timer.isSome then
      ({ e with
         alarms := e.alarms.map fun p =>
           if p.1 = key then (p.1, { p.2 with timer := none }) else p },
       [.shutdownInitiated key])
    else
      (e, [])

/-- Modelled from the spec: the engine events after discovery — a
checkAlarm call driven by a decoded alarm signal, a power transition
(carrying the values the power-on re-check would read), and a timer
expiry. -/
inductive Event
  | check (value : Bool) (key : AlarmKey)
  | power (on_ : Bool) (vals : List (AlarmKey × Bool))
  | expire (key : AlarmKey)
  deriving DecidableEq

/-- Modelled from the spec: one engine step. -/
def step (softDelay hardDelay : Nat) (e : Engine) :
    Event → Engine × List LogEvent
  | .check v k => checkAlarm softDelay hardDelay v k e
  | .power on_ vals => powerStateChanged softDelay hardDelay on_ vals e
  | .expire k => timerExpired k e

/-- Modelled from the spec: run a sequence of engine events, accumulating
the emitted event logs. -/
def run (softDelay hardDelay : Nat) (e : Engine) :
    List Event → Engine × List LogEvent
  | [] => (e, [])
  | ev :: evs =>
    let r := step softDelay hardDelay e ev
    let rest := run softDelay hardDelay r.1 evs
    (rest.1, r.2 ++ rest.2)

/-- Modelled from the spec: the state after discovery. findAlarms inserts
every discovered AlarmKey into the registry with no timer; no value has
been observed yet. -/
def init (keys : List AlarmKey) (power : Bool) : Engine :=
  { alarms := keys.map fun k => (k, { timer := none, lastVal := false }),
    power := power }

/-- A registry entry agrees with the invariant of section 3 of the spec
at a given power state: its timer exists iff the last-known alarm value
is tripped and power is on. -/
def goodEntry (power : Bool) (st : AlarmEntry) : Prop :=
  st.timer.isSome = (st.lastVal && power)

instance (power : Bool) (st : AlarmEntry) : Decidable (goodEntry power st) :=
  inferInstanceAs (Decidable (st.timer.isSome = (st.lastVal && power)))

/-- The registry invariant of section 3 of the spec: for every AlarmKey
present in the registry, a timer exists iff the last-known alarm value is
tripped and power is currently on. -/
def timerInvariant (e : Engine) : Prop :=
  ∀ p ∈ e.alarms, goodEntry e.power p.2

instance (e : Engine) : Decidable (timerInvariant e) :=
  inferInstanceAs (Decidable (∀ p ∈ e.alarms, goodEntry e.power p.2))

/-- The key set of the registry (the timer map restricted to its keys). -/
def registryKeys (e : Engine) : List AlarmKey :=
  e.alarms.map Prod.fst

/-- The timer components of the registry, the map the spec calls the
Registry proper (the observation ghost state projected away). -/
def registryTimers (e : Engine) : List (AlarmKey × Option Nat) :=
  e.alarms.map fun p => (p.1, p.2.timer)

/-- Whether an event is a timer expiry. -/
def Event.isExpire : Event → Bool
  | .expire _ => true
  | _ => false

/-- Whether an event is a power transition to on. -/
def Event.isPowerOn : Event → Bool
  | .power true _ => true
  | _ => false

/-- Whether a power-on event supplies a successfully read value for every
given alarm key (a non-power-on event trivially does). -/
def Event.covers (keys : List AlarmKey) : Event → Bool
  | .power true vals => keys.all fun k => (control.vlookup k vals).isSome
  | _ => true

end monitor

open control monitor

/-- Helper: a left fold that appends per-element effects equals the
concatenation of the per-element effect lists, in order. -/
theorem foldl_append_join {α β : Type} (f : α → List β) (l : List α)
    (acc : List β) :
    l.foldl (fun a m => a ++ f m) acc = acc ++ (l.map f).flatten := by
  induction l generalizing acc with
  | nil => simp
  | cons x xs ih => simp [ih, List.append_assoc]

/-- Claim C4: for every live properties-changed message that is well
typed for the binding, Properties.onSignal invokes its handler with the
extracted value exactly when the interface name of the message equals the
filter interface and the filter property is present in the name-to-value
mapping; when the interface differs it does nothing, and when the
property is absent it logs an error and does not invoke the handler. -/
theorem properties_live_dispatch (b : Properties) (tag : DBusType)
    (zone : ZoneRead) (m : PropSignal) (hwt : wellTyped tag m.props) :
    (m.iface ≠ b.iface → b.onSignal tag zone (some m) = .ok []) ∧
    (m.iface = b.iface → vlookup b.property m.props = none →
      b.onSignal tag zone (some m) = .ok [.logErr]) ∧
    (∀ v, m.iface = b.iface → vlookup b.property m.props = some v →
      b.onSignal tag zone (some m) = .ok [.invoked v]) := by
  refine ⟨fun h => ?_, fun h hl => ?_, fun v h hl => ?_⟩
  · simp [Properties.onSignal, readTypedProps, h]
  · simp [Properties.onSignal, readTypedProps, h, hwt, hl]
  · simp [Properties.onSignal, readTypedProps, h, hwt, hl]

/-- Witness for claim C4 at a concrete binding and message. -/
theorem properties_live_dispatch_witness :
    Properties.onSignal ⟨"/p", "xyz.I", "Value"⟩ .tBool (fun _ _ _ => none)
      (some ⟨"xyz.I", [("Value", .vBool true)]⟩) =
      .ok [.invoked (.vBool true)] := by
  have h := properties_live_dispatch ⟨"/p", "xyz.I", "Value"⟩ .tBool
    (fun _ _ _ => none) ⟨"xyz.I", [("Value", .vBool true)]⟩ (by decide)
  exact h.2.2 (.vBool true) rfl (by decide)

/-- Counterexample for claim C5: a live message with matching interface
whose filtered property carries an int where the binding expects a bool
makes Properties.onSignal end in an uncaught decode error — the fault
escapes to the caller instead of being reported and swallowed. -/
theorem properties_mismatch_cex :
    Properties.onSignal ⟨"/p", "xyz.I", "Value"⟩ .tBool (fun _ _ _ => none)
      (some ⟨"xyz.I", [("Value", .vInt 1)]⟩) = .error () ∧
    (Except.error () : Except Unit (List Action)) ≠ .ok [.logErr] := by
  constructor
  · simp [Properties.onSignal, readTypedProps, wellTyped, DBusValue.typeOf]
  · intro h
    exact Except.noConfusion h

/-- Claim C5 (amended): on a live message with matching interface whose
property map is not well typed for the expected type T, the binding
neither logs nor invokes the handler — the decode fault propagates
uncaught to the caller, since the live branch catches nothing. -/
theorem properties_mismatch_escapes (b : Properties) (tag : DBusType)
    (zone : ZoneRead) (m : PropSignal) (hif : m.iface = b.iface)
    (hwt : ¬ wellTyped tag m.props) :
    b.onSignal tag zone (some m) = .error () := by
  simp [Properties.onSignal, readTypedProps, hif, hwt]

/-- Witness for claim C5 (amended) at a concrete binding and message. -/
theorem properties_mismatch_escapes_witness :
    Properties.onSignal ⟨"/p", "xyz.I", "Value"⟩ .tBool (fun _ _ _ => none)
      (some ⟨"xyz.I", [("Other", .vString "s")]⟩) = .error () :=
  properties_mismatch_escapes ⟨"/p", "xyz.I", "Value"⟩ .tBool
    (fun _ _ _ => none) ⟨"xyz.I", [("Other", .vString "s")]⟩ rfl (by decide)

/-- Claim C6: Properties.onGroup performs a synchronous read for each
member in order; a member whose read fails contributes no handler
invocation and the enumeration continues with the remaining members,
while a member whose read succeeds has the handler invoked with the
value. -/
theorem properties_group_enum (zone : ZoneRead) :
    (∀ group : List Member,
      Properties.onGroup zone group =
        (group.map (Properties.memberActions zone)).flatten) ∧
    (∀ (m : Member) (rest : List Member),
      Properties.onGroup zone (m :: rest) =
        Properties.memberActions zone m ++ Properties.onGroup zone rest) ∧
    (∀ m : Member, zone m.path m.iface m.property = none →
      Properties.memberActions zone m = []) ∧
    (∀ (m : Member) (v : DBusValue), zone m.path m.iface m.property = some v →
      Properties.memberActions zone m = [.invoked v]) := by
  have hjoin : ∀ group : List Member,
      Properties.onGroup zone group =
        (group.map (Properties.memberActions zone)).flatten := by
    intro group
    unfold Properties.onGroup
    simpa using foldl_append_join (Properties.memberActions zone) group []
  refine ⟨hjoin, fun m rest => ?_, fun m hz => ?_, fun m v hz => ?_⟩
  · rw [hjoin, hjoin, List.map_cons]
    exact List.flatten_cons ..
  · simp [Properties.memberActions, hz]
  · simp [Properties.memberActions, hz]

/-- Witness for claim C6: a failing member followed by a succeeding one;
the failure is skipped and the later member still reaches the handler. -/
theorem properties_group_enum_witness :
    Properties.onGroup
      (fun p _ _ => if p = "/ok" then some (.vBool true) else none)
      [⟨"/bad", "i", "x"⟩, ⟨"/ok", "i", "x"⟩] = [.invoked (.vBool true)] := by
  have h := properties_group_enum
    (fun p _ _ => if p = "/ok" then some (.vBool true) else none)
  rw [h.2.1 ⟨"/bad", "i", "x"⟩ [⟨"/ok", "i", "x"⟩],
    h.2.1 ⟨"/ok", "i", "x"⟩ [],
    h.2.2.1 ⟨"/bad", "i", "x"⟩ (by decide),
    h.2.2.2 ⟨"/ok", "i", "x"⟩ (.vBool true) (by decide)]
  rfl

/-- Counterexample for claim C7: the handler-only Properties binding has
empty filter fields, yet a live message with a non-empty interface name
does not reach the handler — the empty interface filter is compared
literally, not treated as a wildcard. -/
theorem properties_wildcard_cex :
    Properties.onSignal Properties.ofHandler .tBool (fun _ _ _ => none)
      (some ⟨"xyz.I", [("Value", .vBool true)]⟩) = .ok [] := by
  simp [Properties.onSignal, Properties.ofHandler]

/-- Claim C7 (amended): the handler-only constructor stores empty strings
in all three filter fields, and the empty interface filter matches only
messages whose interface name is itself empty: on any live message with a
non-empty interface name the binding does nothing. -/
theorem properties_empty_filter (tag : DBusType) (zone : ZoneRead)
    (m : PropSignal) (h : m.iface ≠ "") :
    Properties.ofHandler.path = "" ∧ Properties.ofHandler.iface = "" ∧
    Properties.ofHandler.property = "" ∧
    Properties.onSignal Properties.ofHandler tag zone (some m) = .ok [] := by
  refine ⟨rfl, rfl, rfl, ?_⟩
  simp [Properties.onSignal, Properties.ofHandler, h]

/-- Witness for claim C7 (amended) at a concrete message. -/
theorem properties_empty_filter_witness :
    Properties.onSignal Properties.ofHandler .tBool (fun _ _ _ => none)
      (some ⟨"org.I", []⟩) = .ok [] :=
  (properties_empty_filter .tBool (fun _ _ _ => none) ⟨"org.I", []⟩
    (by decide)).2.2.2

/-- Claim C8: for every live interfaces-added message that is well typed
for the binding, InterfaceAdded.onSignal invokes its handler with the
extracted value exactly when the announced object path equals the filter
path, the filter interface is present in the nested mapping, and the
filter property is present within that interface entry; in every other
case it does nothing. -/
theorem interface_added_dispatch (b : InterfaceAdded) (tag : DBusType)
    (m : AddedSignal) (hwt : wellTypedNested tag m.intfProp) :
    (m.path ≠ b.path → b.onSignal tag (some m) = .ok []) ∧
    (m.path = b.path → vlookup b.iface m.intfProp = none →
      b.onSignal tag (some m) = .ok []) ∧
    (∀ props, m.path = b.path → vlookup b.iface m.intfProp = some props →
      vlookup b.property props = none → b.onSignal tag (some m) = .ok []) ∧
    (∀ props v, m.path = b.path → vlookup b.iface m.intfProp = some props →
      vlookup b.property props = some v →
      b.onSignal tag (some m) = .ok [.invoked v]) := by
  refine ⟨fun h => ?_, fun h hi => ?_, fun props h hi hp => ?_,
    fun props v h hi hp => ?_⟩
  · simp [InterfaceAdded.onSignal, readTypedNested, h]
  · simp [InterfaceAdded.onSignal, readTypedNested, h, hwt, hi]
  · simp [InterfaceAdded.onSignal, readTypedNested, h, hwt, hi, hp]
  · simp [InterfaceAdded.onSignal, readTypedNested, h, hwt, hi, hp]

/-- Witness for claim C8 at a concrete binding and message. -/
theorem interface_added_dispatch_witness :
    InterfaceAdded.onSignal ⟨"/p", "xyz.I", "Value"⟩ .tInt
      (some ⟨"/p", [("xyz.I", [("Value", .vInt 7)])]⟩) =
      .ok [.invoked (.vInt 7)] := by
  have h := interface_added_dispatch ⟨"/p", "xyz.I", "Value"⟩ .tInt
    ⟨"/p", [("xyz.I", [("Value", .vInt 7)])]⟩ (by decide)
  exact h.2.2.2 [("Value", .vInt 7)] (.vInt 7) rfl (by decide) (by decide)

/-- Claim C9: NameOwner.onGroup iterates the members in order from the
empty dedup state: the pass over a member list decomposes sequentially
(no failure aborts it), a member whose service resolution or ownership
query fails produces no handler invocation and resets the dedup state to
the empty name with no owner, a member resolving to the currently held
dedup name is skipped, and a member resolving to a different name has the
ownership query issued and the handler invoked with its result. -/
theorem name_owner_group (bus : NOBus) :
    (∀ group : List Member, NameOwner.onGroup bus group =
      (NameOwner.runFrom bus ⟨"", false⟩ group).2) ∧
    (∀ (st : NOState) (m : Member) (rest : List Member),
      NameOwner.runFrom bus st (m :: rest) =
        ((NameOwner.runFrom bus (NameOwner.step bus st m).1 rest).1,
         (NameOwner.step bus st m).2 ++
           (NameOwner.runFrom bus (NameOwner.step bus st m).1 rest).2)) ∧
    (∀ (st : NOState) (m : Member), bus.getService m.path m.iface = none →
      NameOwner.step bus st m = (⟨"", false⟩, [])) ∧
    (∀ (st : NOState) (m : Member) (s : String),
      bus.getService m.path m.iface = some s → st.name ≠ s →
      bus.nameHasOwner s = none →
      NameOwner.step bus st m = (⟨"", false⟩, [])) ∧
    (∀ (st : NOState) (m : Member) (s : String),
      bus.getService m.path m.iface = some s → st.name = s →
      NameOwner.step bus st m = (st, [])) ∧
    (∀ (st : NOState) (m : Member) (s : String) (owns : Bool),
      bus.getService m.path m.iface = some s → st.name ≠ s →
      bus.nameHasOwner s = some owns →
      NameOwner.step bus st m = (⟨s, owns⟩, [.invoked s owns])) := by
  have hrun : ∀ (group : List Member) (st : NOState)
      (acc : List NOAction),
      group.foldl
        (fun acc m =>
          let r := NameOwner.step bus acc.1 m
          (r.1, acc.2 ++ r.2)) (st, acc) =
      ((NameOwner.runFrom bus st group).1,
       acc ++ (NameOwner.runFrom bus st group).2) := by
    intro group
    induction group with
    | nil => intro st acc; simp [NameOwner.runFrom]
    | cons m rest ih =>
      intro st acc
      simp only [NameOwner.runFrom, List.foldl_cons, List.nil_append] at ih ⊢
      rw [ih ((NameOwner.step bus st m).1)
          (acc ++ (NameOwner.step bus st m).2),
        ih ((NameOwner.step bus st m).1) ((NameOwner.step bus st m).2)]
      simp [List.append_assoc]
  refine ⟨fun group => rfl, fun st m rest => ?_, fun st m hs => ?_,
    fun st m s hs hne hq => ?_, fun st m s hs heq => ?_,
    fun st m s owns hs hne hq => ?_⟩
  · show (m :: rest).foldl _ (st, []) = _
    rw [List.foldl_cons]
    exact hrun rest (NameOwner.step bus st m).1 (NameOwner.step bus st m).2
  · simp [NameOwner.step, hs]
  · simp [NameOwner.step, hs, hne, hq]
  · simp [NameOwner.step, hs, heq]
  · simp [NameOwner.step, hs, hne, hq]

/-- Witness for claim C9: two members on one service (second deduped),
then a failing member resetting the dedup state, then a member of the
same service as the first, handled again because the state was reset. -/
theorem name_owner_group_witness :
    NameOwner.onGroup
      ⟨fun p _ => if p = "/bad" then none else some "svc",
       fun _ => some true⟩
      [⟨"/a", "i", "x"⟩, ⟨"/b", "i", "x"⟩, ⟨"/bad", "i", "x"⟩,
       ⟨"/c", "i", "x"⟩] =
      [.invoked "svc" true, .invoked "svc" true] := by
  have h := name_owner_group
    ⟨fun p _ => if p = "/bad" then none else some "svc", fun _ => some true⟩
  rw [h.1, h.2.1, h.2.1, h.2.1, h.2.1,
    h.2.2.2.2.2 ⟨"", false⟩ ⟨"/a", "i", "x"⟩ "svc" true (by decide)
      (by decide) rfl]
  rw [h.2.2.2.2.1 ⟨"svc", true⟩ ⟨"/b", "i", "x"⟩ "svc" (by decide) rfl]
  rw [h.2.2.1 ⟨"svc", true⟩ ⟨"/bad", "i", "x"⟩ (by decide)]
  rw [h.2.2.2.2.2 ⟨"", false⟩ ⟨"/c", "i", "x"⟩ "svc" true (by decide)
      (by decide) rfl]
  rfl

/-- Claim C10: with an absent message, Properties.onSignal does not
no-op: it synchronously reads the stored (path, interface, property)
filter, invokes the handler on success and silently swallows a bus error,
while InterfaceAdded.onSignal and InterfaceRemoved.onSignal do nothing at
all when the message is absent. -/
theorem properties_null_message (b : Properties) (tag : DBusType)
    (zone : ZoneRead) :
    (∀ v, zone b.path b.iface b.property = some v →
      b.onSignal tag zone none = .ok [.invoked v]) ∧
    (zone b.path b.iface b.property = none →
      b.onSignal tag zone none = .ok []) ∧
    (∀ (bA : InterfaceAdded) (tagA : DBusType),
      bA.onSignal tagA none = .ok []) ∧
    (∀ bR : InterfaceRemoved, bR.onSignal none = []) := by
  refine ⟨fun v hv => ?_, fun hv => ?_, fun bA tagA => rfl, fun bR => rfl⟩
  · simp [Properties.onSignal, hv]
  · simp [Properties.onSignal, hv]

/-- Witness for claim C10 at a concrete binding: the fallback read
succeeds and reaches the handler. -/
theorem properties_null_message_witness :
    Properties.onSignal ⟨"/p", "xyz.I", "Value"⟩ .tBool
      (fun p i pr => if p = "/p" ∧ i = "xyz.I" ∧ pr = "Value"
        then some (.vBool false) else none) none =
      .ok [.invoked (.vBool false)] :=
  (properties_null_message ⟨"/p", "xyz.I", "Value"⟩ .tBool
    (fun p i pr => if p = "/p" ∧ i = "xyz.I" ∧ pr = "Value"
      then some (.vBool false) else none)).1 (.vBool false) (by decide)

/-- Helper: lookup after updating every entry of a given key in an
association list. -/
theorem vlookup_map_update {α β : Type} [DecidableEq α] (k : α) (f : β → β)
    (l : List (α × β)) (k2 : α) :
    vlookup k2 (l.map fun p => if p.1 = k then (p.1, f p.2) else p) =
    if k2 = k then (vlookup k2 l).map f else vlookup k2 l := by
  induction l with
  | nil => by_cases h : k2 = k <;> simp [vlookup, h]
  | cons p ps ih =>
    by_cases hpk : p.1 = k
    · by_cases hk2 : k2 = k
      · subst hk2
        simp [vlookup, hpk, ih]
      · have hk2s : ¬ k = k2 := fun h => hk2 h.symm
        simp [vlookup, hpk, hk2s, ih, hk2]
    · by_cases hpk2 : p.1 = k2
      · have hk2 : ¬ k2 = k := fun h => hpk (hpk2.trans h)
        simp [vlookup, hpk, hpk2, hk2]
      · simp [vlookup, hpk, hpk2, ih]

/-- Helper: a successful lookup yields a member of the list. -/
theorem vlookup_mem {α β : Type} [DecidableEq α] (k : α) (b : β) :
    ∀ l : List (α × β), vlookup k l = some b → (k, b) ∈ l := by
  intro l
  induction l with
  | nil => intro h; simp [vlookup] at h
  | cons p ps ih =>
    intro h
    by_cases hp : p.1 = k
    · simp only [vlookup, if_pos hp] at h
      have : (k, b) = p := by
        cases p
        cases hp
        cases h
        rfl
      rw [this]
      exact List.mem_cons_self ..
    · simp only [vlookup, if_neg hp] at h
      exact List.mem_cons_of_mem _ (ih h)

/-- Helper: a failed lookup means no member carries the key. -/
theorem vlookup_eq_none {α β : Type} [DecidableEq α] (k : α)
    (l : List (α × β)) (h : vlookup k l = none) : ∀ p ∈ l, p.1 ≠ k := by
  induction l with
  | nil => simp
  | cons p ps ih =>
    intro q hq
    by_cases hp : p.1 = k
    · simp [vlookup, hp] at h
    · rcases List.mem_cons.mp hq with rfl | hq2
      · exact hp
      · exact ih (by simpa [vlookup, hp] using h) q hq2

/-- Helper: keys are unchanged by a conditional per-key value update. -/
theorem keys_map_update {α β : Type} [DecidableEq α] (k : α) (f : β → β)
    (l : List (α × β)) :
    (l.map fun p => if p.1 = k then (p.1, f p.2) else p).map Prod.fst =
      l.map Prod.fst := by
  induction l with
  | nil => rfl
  | cons p ps ih =>
    by_cases h : p.1 = k <;> simp [h, ih]

/-- Helper: keys are unchanged by an unconditional value update. -/
theorem keys_map_all {α β : Type} (f : α → β → β) (l : List (α × β)) :
    (l.map fun p => (p.1, f p.1 p.2)).map Prod.fst = l.map Prod.fst := by
  induction l with
  | nil => rfl
  | cons p ps ih => simp [ih]

/-- Helper: with power on, an entry just processed by a check satisfies
the timer-iff-tripped equivalence regardless of its previous state. -/
theorem goodEntry_applyCheck_on (sd hd : Nat) (v : Bool) (k : AlarmKey)
    (st : AlarmEntry) : goodEntry true (applyCheck sd hd true v k st).1 := by
  unfold applyCheck goodEntry
  cases v <;> cases h : st.timer <;> simp [h]

/-- Helper: a check preserves the timer-iff-tripped equivalence of an
entry at any power state. -/
theorem goodEntry_applyCheck (sd hd : Nat) (power v : Bool) (k : AlarmKey)
    (st : AlarmEntry) (hg : goodEntry power st) :
    goodEntry power (applyCheck sd hd power v k st).1 := by
  cases power
  · unfold goodEntry at hg
    unfold applyCheck goodEntry
    cases v <;> cases h : st.timer <;> simp_all
  · exact goodEntry_applyCheck_on sd hd v k st

/-- Helper: checkAlarm does not touch the power state. -/
theorem checkAlarm_power (sd hd : Nat) (v : Bool) (k : AlarmKey)
    (e : Engine) : (checkAlarm sd hd v k e).1.power = e.power := by
  unfold checkAlarm
  cases h : vlookup k e.alarms <;> simp [h]

/-- Helper: checkAlarm does not touch the registry key set. -/
theorem checkAlarm_keys (sd hd : Nat) (v : Bool) (k : AlarmKey)
    (e : Engine) : registryKeys (checkAlarm sd hd v k e).1 = registryKeys e := by
  unfold checkAlarm
  cases h : vlookup k e.alarms with
  | none => rfl
  | some st =>
    simp only [h]
    exact keys_map_update k
      (fun _ => (applyCheck sd hd e.power v k st).1) e.alarms

/-- Helper: every registry entry after checkAlarm is either an untouched
entry of another key, or the processed image of the looked-up entry. -/
theorem checkAlarm_mem (sd hd : Nat) (v : Bool) (k : AlarmKey) (e : Engine) :
    ∀ p ∈ (checkAlarm sd hd v k e).1.alarms,
      (p ∈ e.alarms ∧ (vlookup k e.alarms = none ∨ p.1 ≠ k)) ∨
      (p.1 = k ∧ ∃ st, vlookup k e.alarms = some st ∧
        p.2 = (applyCheck sd hd e.power v k st).1) := by
  intro p hp
  unfold checkAlarm at hp
  cases h : vlookup k e.alarms with
  | none =>
    rw [h] at hp
    exact Or.inl ⟨hp, Or.inl rfl⟩
  | some st =>
    rw [h] at hp
    simp only [List.mem_map] at hp
    obtain ⟨q, hq, hpq⟩ := hp
    by_cases hk : q.1 = k
    · right
      rw [if_pos hk] at hpq
      refine ⟨?_, st, rfl, ?_⟩
      · rw [← hpq, hk]
      · rw [← hpq]
    · left
      rw [if_neg hk] at hpq
      exact ⟨hpq ▸ hq, Or.inr (hpq ▸ hk)⟩

/-- Helper: with power on, every entry of the checked key satisfies the
timer-iff-tripped equivalence after checkAlarm. -/
theorem checkAlarm_key_good (sd hd : Nat) (v : Bool) (k : AlarmKey)
    (e : Engine) (hp : e.power = true) :
    ∀ p ∈ (checkAlarm sd hd v k e).1.alarms, p.1 = k → goodEntry true p.2 := by
  intro p hmem hk
  rcases checkAlarm_mem sd hd v k e p hmem with
    ⟨hin, hnone | hne⟩ | ⟨_, st, _, hval⟩
  · exact absurd hk (vlookup_eq_none k e.alarms hnone p hin)
  · exact absurd hk hne
  · rw [hval, hp]
    exact goodEntry_applyCheck_on sd hd v k st

/-- Helper: checkAlarm preserves the registry invariant. -/
theorem timerInvariant_checkAlarm (sd hd : Nat) (v : Bool) (k : AlarmKey)
    (e : Engine) (hInv : timerInvariant e) :
    timerInvariant (checkAlarm sd hd v k e).1 := by
  intro p hmem
  rw [show (checkAlarm sd hd v k e).1.power = e.power from
    checkAlarm_power sd hd v k e]
  rcases checkAlarm_mem sd hd v k e p hmem with ⟨hin, _⟩ | ⟨_, st, hl, hval⟩
  · exact hInv p hin
  · rw [hval]
    exact goodEntry_applyCheck sd hd e.power v k st
      (hInv (k, st) (vlookup_mem k st e.alarms hl))

/-- Helper: the checkAlarms iteration does not touch the power state. -/
theorem checkAlarmsGo_power (sd hd : Nat) (vals : List (AlarmKey × Bool)) :
    ∀ (ks : List AlarmKey) (acc : Engine × List LogEvent),
      (checkAlarmsGo sd hd vals ks acc).1.power = acc.1.power := by
  intro ks
  induction ks with
  | nil => intro acc; rfl
  | cons k ks ih =>
    intro acc
    unfold checkAlarmsGo
    cases h : vlookup k vals with
    | none => exact ih acc
    | some v =>
      simp only
      rw [ih]
      exact checkAlarm_power sd hd v k acc.1

/-- Helper: the checkAlarms iteration does not touch the key set. -/
theorem checkAlarmsGo_keys (sd hd : Nat) (vals : List (AlarmKey × Bool)) :
    ∀ (ks : List AlarmKey) (acc : Engine × List LogEvent),
      registryKeys (checkAlarmsGo sd hd vals ks acc).1 =
        registryKeys acc.1 := by
  intro ks
  induction ks with
  | nil => intro acc; rfl
  | cons k ks ih =>
    intro acc
    unfold checkAlarmsGo
    cases h : vlookup k vals with
    | none => exact ih acc
    | some v =>
      simp only
      rw [ih]
      exact checkAlarm_keys sd hd v k acc.1

/-- Helper: with power on and a re-read value available for every pending
key, the checkAlarms iteration leaves every registry entry satisfying
the timer-iff-tripped equivalence once all keys have been visited. -/
theorem checkAlarmsGo_good (sd hd : Nat) (vals : List (AlarmKey × Bool)) :
    ∀ (ks : List AlarmKey) (acc : Engine × List LogEvent),
      acc.1.power = true →
      (∀ k ∈ ks, (vlookup k vals).isSome = true) →
      (∀ p ∈ acc.1.alarms, p.1 ∉ ks → goodEntry true p.2) →
      ∀ p ∈ (checkAlarmsGo sd hd vals ks acc).1.alarms, goodEntry true p.2 := by
  intro ks
  induction ks with
  | nil =>
    intro acc _ _ hgood
    exact fun p hp => hgood p hp (List.not_mem_nil _)
  | cons k ks ih =>
    intro acc hpow hcov hgood
    obtain ⟨v, hv⟩ := Option.isSome_iff_exists.mp
      (hcov k (List.mem_cons_self ..))
    unfold checkAlarmsGo
    rw [hv]
    simp only
    apply ih
    · rw [checkAlarm_power]
      exact hpow
    · exact fun k2 hk2 => hcov k2 (List.mem_cons_of_mem _ hk2)
    · intro p hp hnot
      by_cases hk : p.1 = k
      · exact checkAlarm_key_good sd hd v k acc.1 hpow p hp hk
      · rcases checkAlarm_mem sd hd v k acc.1 p hp with ⟨hin, _⟩ | ⟨heq, _⟩
        · refine hgood p hin ?_
          intro hmem
          rcases List.mem_cons.mp hmem with h1 | h2
          · exact hk h1
          · exact hnot h2
        · exact absurd heq hk

/-- Helper: a power-on transition with a re-read value available for every
registry key restores the registry invariant. -/
theorem timerInvariant_powerOn (sd hd : Nat) (vals : List (AlarmKey × Bool))
    (e : Engine)
    (hcov : ∀ k ∈ registryKeys e, (vlookup k vals).isSome = true) :
    timerInvariant (powerStateChanged sd hd true vals e).1 := by
  unfold powerStateChanged checkAlarms
  simp only [if_pos]
  intro p hp
  rw [checkAlarmsGo_power]
  apply checkAlarmsGo_good sd hd vals _ ({ e with power := true }, [])
    rfl hcov _ p hp
  intro q hq hnot
  exact absurd (List.mem_map_of_mem Prod.fst hq) hnot

/-- Helper: a power-off transition leaves every entry timerless and the
invariant holds trivially. -/
theorem timerInvariant_powerOff (sd hd : Nat) (vals : List (AlarmKey × Bool))
    (e : Engine) :
    timerInvariant (powerStateChanged sd hd false vals e).1 := by
  intro p hp
  simp only [powerStateChanged, if_neg Bool.false_ne_true] at hp ⊢
  simp only [List.mem_map] at hp
  obtain ⟨q, _, rfl⟩ := hp
  simp [goodEntry]

/-- Helper: no engine step adds or removes a registry key (the alarm
universe is static after discovery). -/
theorem step_keys (sd hd : Nat) (e : Engine) (ev : Event) :
    registryKeys (step sd hd e ev).1 = registryKeys e := by
  cases ev with
  | check v k => exact checkAlarm_keys sd hd v k e
  | power on_ vals =>
    cases on_ with
    | false =>
      simp only [step, powerStateChanged, if_neg Bool.false_ne_true]
      exact keys_map_all (fun _ st => { st with timer := none }) e.alarms
    | true =>
      simp only [step, powerStateChanged, if_pos]
      unfold checkAlarms
      rw [checkAlarmsGo_keys]
      rfl
  | expire k =>
    simp only [step]
    unfold timerExpired
    cases h : vlookup k e.alarms with
    | none => rfl
    | some st =>
      by_cases ht : st.timer.isSome = true
      · simp only [h, ht, if_pos]
        exact keys_map_update k (fun st => { st with timer := none }) e.alarms
      · simp only [h, ht]
        rfl

/-- Helper: the registry invariant is preserved along any run with no
timer expiry whose power-on events supply a value for every key of the
evolving registry. -/
theorem timerInvariant_run_aux (sd hd : Nat) :
    ∀ (evs : List Event) (e : Engine), timerInvariant e →
      (∀ ev ∈ evs, Event.isExpire ev = false) →
      (∀ ev ∈ evs, Event.covers (registryKeys e) ev = true) →
      timerInvariant (run sd hd e evs).1 := by
  intro evs
  induction evs with
  | nil => exact fun e h _ _ => h
  | cons ev evs ih =>
    intro e hInv hexp hcov
    simp only [run]
    apply ih
    · cases ev with
      | check v k => exact timerInvariant_checkAlarm sd hd v k e hInv
      | power on_ vals =>
        cases on_ with
        | true =>
          apply timerInvariant_powerOn
          have hc := hcov (Event.power true vals) (List.mem_cons_self ..)
          simp only [Event.covers, List.all_eq_true] at hc
          exact fun k hk => hc k hk
        | false => exact timerInvariant_powerOff sd hd vals e
      | expire k =>
        have := hexp (Event.expire k) (List.mem_cons_self ..)
        simp [Event.isExpire] at this
    · exact fun ev2 h2 => hexp ev2 (List.mem_cons_of_mem _ h2)
    · intro ev2 h2
      rw [step_keys]
      exact hcov ev2 (List.mem_cons_of_mem _ h2)

/-- Counterexample for claim C1: from a discovered registry with power
on, a check that trips the alarm followed by the expiry of its timer
leaves the timer absent while the last-known value is still tripped and
power is still on — the claimed equivalence fails after an expiry. -/
theorem timer_invariant_cex :
    ¬ timerInvariant (run 5 7 (init [⟨"/t0", .soft, .low⟩] true)
      [.check true ⟨"/t0", .soft, .low⟩,
       .expire ⟨"/t0", .soft, .low⟩]).1 := by
  decide

/-- Claim C1 (amended): for every AlarmKey present in the registry, at
every point reachable from discovery by checkAlarm calls and power
transitions whose power-on re-checks successfully read every registry
key — timer expiries excluded — a timer is present iff the last-known
alarm value is tripped and power is currently on; a timer expiry breaks
the equivalence by removing the timer while the last-known value remains
tripped. -/
theorem timer_invariant_no_expiry (sd hd : Nat) (keys : List AlarmKey)
    (p0 : Bool) (evs : List Event)
    (hexp : ∀ ev ∈ evs, Event.isExpire ev = false)
    (hcov : ∀ ev ∈ evs, Event.covers keys ev = true) :
    timerInvariant (run sd hd (init keys p0) evs).1 := by
  have hkeys : registryKeys (init keys p0) = keys := by
    simp only [registryKeys, init, List.map_map]
    have hcomp : (Prod.fst ∘ fun k : AlarmKey =>
        (k, ({ timer := none, lastVal := false } : AlarmEntry))) = id := rfl
    rw [hcomp, List.map_id]
  apply timerInvariant_run_aux sd hd evs (init keys p0) ?_ hexp ?_
  · intro p hp
    simp only [init, List.mem_map] at hp
    obtain ⟨k, _, rfl⟩ := hp
    simp [goodEntry]
  · intro ev h
    rw [hkeys]
    exact hcov ev h

/-- Witness for claim C1 (amended): power-on re-check of a tripped alarm
followed by a clearing check keeps the invariant. -/
theorem timer_invariant_no_expiry_witness :
    timerInvariant (run 5 7 (init [⟨"/t0", .soft, .low⟩] false)
      [.power true [(⟨"/t0", .soft, .low⟩, true)],
       .check false ⟨"/t0", .soft, .low⟩]).1 :=
  timer_invariant_no_expiry 5 7 [⟨"/t0", .soft, .low⟩] false
    [.power true [(⟨"/t0", .soft, .low⟩, true)],
     .check false ⟨"/t0", .soft, .low⟩]
    (by decide) (by decide)

/-- Helper: with power on, a true value and no running timer, a check
creates and arms the class-specific timer and logs the assertion. -/
theorem applyCheck_start (sd hd : Nat) (k : AlarmKey) (st : AlarmEntry)
    (ht : st.timer = none) :
    applyCheck sd hd true true k st =
      (⟨some (delayFor sd hd k.cls), true⟩, [.asserted k]) := by
  simp [applyCheck, ht]

/-- Helper: with a false value and a running timer, a check cancels and
removes the timer and logs the clearing. -/
theorem applyCheck_stop (sd hd : Nat) (power : Bool) (k : AlarmKey)
    (st : AlarmEntry) (d : Nat) (ht : st.timer = some d) :
    applyCheck sd hd power false k st = (⟨none, false⟩, [.cleared k]) := by
  simp [applyCheck, ht]

/-- Helper: in every remaining combination a check only records the
observed value: the timer is untouched and nothing is logged. -/
theorem applyCheck_noop (sd hd : Nat) (power v : Bool) (k : AlarmKey)
    (st : AlarmEntry)
    (h1 : v = true → power = false ∨ st.timer.isSome = true)
    (h0 : v = false → st.timer = none) :
    applyCheck sd hd power v k st = ({ st with lastVal := v }, []) := by
  cases v with
  | false => simp [applyCheck, h0 rfl]
  | true =>
    rcases h1 rfl with hp | ht
    · subst hp
      simp [applyCheck]
    · obtain ⟨d, hd2⟩ := Option.isSome_iff_exists.mp ht
      simp [applyCheck, hd2]

/-- Helper: checkAlarm on a known key rewrites every entry of that key to
the processed image of the first one and emits the logs of the check. -/
theorem checkAlarm_eq (sd hd : Nat) (v : Bool) (k : AlarmKey) (e : Engine)
    (st : AlarmEntry) (hl : vlookup k e.alarms = some st) :
    checkAlarm sd hd v k e =
      ({ e with alarms := e.alarms.map fun p =>
          if p.1 = k then (p.1, (applyCheck sd hd e.power v k st).1) else p },
       (applyCheck sd hd e.power v k st).2) := by
  unfold checkAlarm
  rw [hl]

/-- Claim C2: for every registry key and value, checkAlarm creates and
arms a timer with the class-specific delay and logs an assertion exactly
when the value is true, power is on and the key has no timer; cancels and
removes the timer and logs a clearing exactly when the value is false and
the key has a timer; and in every other combination (including a key
the registry does not know) leaves the timer map unchanged and logs
nothing. -/
theorem check_alarm_cases (sd hd : Nat) (v : Bool) (k : AlarmKey)
    (e : Engine) :
    (∀ st, vlookup k e.alarms = some st → v = true → e.power = true →
      st.timer = none →
      (checkAlarm sd hd v k e).2 = [.asserted k] ∧
      vlookup k (checkAlarm sd hd v k e).1.alarms =
        some ⟨some (delayFor sd hd k.cls), true⟩ ∧
      ∀ k2, k2 ≠ k →
        vlookup k2 (checkAlarm sd hd v k e).1.alarms =
          vlookup k2 e.alarms) ∧
    (∀ st d, vlookup k e.alarms = some st → v = false →
      st.timer = some d →
      (checkAlarm sd hd v k e).2 = [.cleared k] ∧
      vlookup k (checkAlarm sd hd v k e).1.alarms = some ⟨none, false⟩ ∧
      ∀ k2, k2 ≠ k →
        vlookup k2 (checkAlarm sd hd v k e).1.alarms =
          vlookup k2 e.alarms) ∧
    (vlookup k e.alarms = none → checkAlarm sd hd v k e = (e, [])) ∧
    (∀ st, vlookup k e.alarms = some st →
      (v = true → e.power = false ∨ st.timer.isSome = true) →
      (v = false → st.timer = none) →
      (checkAlarm sd hd v k e).2 = [] ∧
      ∀ k2, (vlookup k2 (checkAlarm sd hd v k e).1.alarms).map
          AlarmEntry.timer =
        (vlookup k2 e.alarms).map AlarmEntry.timer) := by
  refine ⟨fun st hl hv hpow ht => ?_, fun st d hl hv ht => ?_,
    fun hl => ?_, fun st hl h1 h0 => ?_⟩
  · subst hv
    have hap : applyCheck sd hd e.power true k st =
        (⟨some (delayFor sd hd k.cls), true⟩, [.asserted k]) := by
      rw [hpow]
      exact applyCheck_start sd hd k st ht
    rw [checkAlarm_eq sd hd true k e st hl]
    refine ⟨by rw [hap], ?_, ?_⟩
    · show vlookup k (e.alarms.map _) = _
      rw [vlookup_map_update k (fun _ => (applyCheck sd hd e.power true k st).1)
        e.alarms k, if_pos rfl, hl, hap]
      rfl
    · intro k2 hk2
      show vlookup k2 (e.alarms.map _) = _
      rw [vlookup_map_update k (fun _ => (applyCheck sd hd e.power true k st).1)
        e.alarms k2, if_neg hk2]
  · subst hv
    have hap : applyCheck sd hd e.power false k st =
        (⟨none, false⟩, [.cleared k]) := applyCheck_stop sd hd e.power k st d ht
    rw [checkAlarm_eq sd hd false k e st hl]
    refine ⟨by rw [hap], ?_, ?_⟩
    · show vlookup k (e.alarms.map _) = _
      rw [vlookup_map_update k (fun _ => (applyCheck sd hd e.power false k st).1)
        e.alarms k, if_pos rfl, hl, hap]
      rfl
    · intro k2 hk2
      show vlookup k2 (e.alarms.map _) = _
      rw [vlookup_map_update k (fun _ => (applyCheck sd hd e.power false k st).1)
        e.alarms k2, if_neg hk2]
  · unfold checkAlarm
    rw [hl]
  · have hap : applyCheck sd hd e.power v k st = ({ st with lastVal := v }, []) :=
      applyCheck_noop sd hd e.power v k st h1 h0
    rw [checkAlarm_eq sd hd v k e st hl]
    refine ⟨by rw [hap], ?_⟩
    intro k2
    show (vlookup k2 (e.alarms.map _)).map AlarmEntry.timer = _
    rw [vlookup_map_update k (fun _ => (applyCheck sd hd e.power v k st).1)
      e.alarms k2]
    by_cases hk2 : k2 = k
    · rw [if_pos hk2, hk2, hl, hap]
      rfl
    · rw [if_neg hk2]

/-- Witness for claim C2: a tripped value with power on and no timer arms
the soft-class timer and logs exactly one assertion. -/
theorem check_alarm_cases_witness :
    (checkAlarm 5 7 true ⟨"/t0", .soft, .low⟩
      ⟨[(⟨"/t0", .soft, .low⟩, ⟨none, false⟩)], true⟩).2 =
      [.asserted ⟨"/t0", .soft, .low⟩] ∧
    vlookup ⟨"/t0", ShutdownType.soft, AlarmType.low⟩
      (checkAlarm 5 7 true ⟨"/t0", .soft, .low⟩
        ⟨[(⟨"/t0", .soft, .low⟩, ⟨none, false⟩)], true⟩).1.alarms =
      some ⟨some 5, true⟩ := by
  have h := (check_alarm_cases 5 7 true ⟨"/t0", .soft, .low⟩
    ⟨[(⟨"/t0", .soft, .low⟩, ⟨none, false⟩)], true⟩).1
    ⟨none, false⟩ (by decide) rfl rfl rfl
  exact ⟨h.1, h.2.1⟩

/-- Helper: while power is off and no timer runs, any single event other
than a power-on keeps power off and every timer absent. -/
theorem off_step (sd hd : Nat) (e : Engine) (ev : Event)
    (hp : e.power = false) (ht : ∀ p ∈ e.alarms, p.2.timer = none)
    (hev : Event.isPowerOn ev = false) :
    (step sd hd e ev).1.power = false ∧
    ∀ p ∈ (step sd hd e ev).1.alarms, p.2.timer = none := by
  cases ev with
  | check v k =>
    constructor
    · show (checkAlarm sd hd v k e).1.power = false
      rw [checkAlarm_power]
      exact hp
    · intro p hmem
      have hmem2 : p ∈ (checkAlarm sd hd v k e).1.alarms := hmem
      rcases checkAlarm_mem sd hd v k e p hmem2 with
        ⟨hin, _⟩ | ⟨_, st, hl, hval⟩
      · exact ht p hin
      · have hst : st.timer = none := ht (k, st) (vlookup_mem k st e.alarms hl)
        rw [hval, hp, applyCheck_noop sd hd false v k st
          (fun _ => Or.inl rfl) (fun _ => hst)]
        exact hst
  | power on_ vals =>
    cases on_ with
    | false =>
      constructor
      · rfl
      · intro p hmem
        have hmem2 : p ∈ e.alarms.map
            (fun p => (p.1, { p.2 with timer := none })) := hmem
        simp only [List.mem_map] at hmem2
        obtain ⟨q, _, rfl⟩ := hmem2
        rfl
    | true =>
      simp [Event.isPowerOn] at hev
  | expire k =>
    have hexp : timerExpired k e = (e, []) := by
      unfold timerExpired
      cases h : vlookup k e.alarms with
      | none => rfl
      | some st =>
        have hst : st.timer = none :=
          ht (k, st) (vlookup_mem k st e.alarms h)
        simp [hst]
    have hstep : step sd hd e (Event.expire k) = (e, []) := hexp
    rw [hstep]
    exact ⟨hp, ht⟩

/-- Claim C3: a power transition to off cancels every running timer for
all alarm keys at once, regardless of alarm values, emitting no event log
at all (in particular no cleared log); and from any powered-off state
with no timers, no sequence of events free of power-on transitions ever
creates a timer. -/
theorem power_off_cancels (sd hd : Nat) :
    (∀ (vals : List (AlarmKey × Bool)) (e : Engine),
      (powerStateChanged sd hd false vals e).2 = [] ∧
      (powerStateChanged sd hd false vals e).1.power = false ∧
      ∀ p ∈ (powerStateChanged sd hd false vals e).1.alarms,
        p.2.timer = none) ∧
    (∀ (e : Engine) (evs : List Event), e.power = false →
      (∀ p ∈ e.alarms, p.2.timer = none) →
      (∀ ev ∈ evs, Event.isPowerOn ev = false) →
      (run sd hd e evs).1.power = false ∧
      ∀ p ∈ (run sd hd e evs).1.alarms, p.2.timer = none) := by
  constructor
  · intro vals e
    refine ⟨rfl, rfl, ?_⟩
    intro p hmem
    have hmem2 : p ∈ e.alarms.map
        (fun p => (p.1, { p.2 with timer := none })) := hmem
    simp only [List.mem_map] at hmem2
    obtain ⟨q, _, rfl⟩ := hmem2
    rfl
  · intro e evs
    induction evs generalizing e with
    | nil => exact fun hp ht _ => ⟨hp, ht⟩
    | cons ev evs ih =>
      intro hp ht hno
      simp only [run]
      obtain ⟨hp2, ht2⟩ := off_step sd hd e ev hp ht
        (hno ev (List.mem_cons_self ..))
      exact ih (step sd hd e ev).1 hp2 ht2
        (fun ev2 h2 => hno ev2 (List.mem_cons_of_mem _ h2))

/-- Witness for claim C3: a power-off over a registry with a running
timer emits nothing, and a later tripped-value check while power stays
off leaves the concrete registry entry timerless. -/
theorem power_off_cancels_witness :
    (powerStateChanged 5 7 false []
      ⟨[(⟨"/t0", .soft, .low⟩, ⟨some 5, true⟩)], true⟩).2 = [] ∧
    ((run 5 7 ⟨[(⟨"/t0", .soft, .low⟩, ⟨none, true⟩)], false⟩
      [.check true ⟨"/t0", .soft, .low⟩]).1.power = false) := by
  refine ⟨((power_off_cancels 5 7).1 []
    ⟨[(⟨"/t0", .soft, .low⟩, ⟨some 5, true⟩)], true⟩).1, ?_⟩
  exact ((power_off_cancels 5 7).2
    ⟨[(⟨"/t0", .soft, .low⟩, ⟨none, true⟩)], false⟩
    [.check true ⟨"/t0", .soft, .low⟩] rfl (by decide) (by decide)).1
